import Mathlib

/-!
Verification of the birdnet-go audio pipeline components: the PCM-to-float
converter (`myaudio/process.go`), the FFmpeg process monitor/reconciler,
the analysis dispatch queue, and the ffmpeg process manager / restart policy.

Machine integers are modelled as `Nat`/`Int` with explicit reduction modulo
`2^w`; `float32` sample values are modelled as exact rationals (division by
the power-of-two divisors used here is exact in `float32` for 16- and 24-bit
samples and within one rounding step for 32-bit ones, which the spec's
"within rounding tolerance" allows; the same rounding step is what pushes
the largest 32-bit samples to exactly 1.0, see
`convert32MaxSampleRoundsToOne`).  Fallible Go functions return `Except`.
-/

namespace Myaudio

/-- Value of a Go `int16` holding the low 16 bits of `n` (two's complement). -/
def toInt16 (n : Nat) : Int :=
  if n % 65536 < 32768 then ((n % 65536 : Nat) : Int)
  else ((n % 65536 : Nat) : Int) - 65536

/-- Value of a Go `int32` holding the low 32 bits of `n` (two's complement). -/
def toInt32 (n : Nat) : Int :=
  if n % 4294967296 < 2147483648 then ((n % 4294967296 : Nat) : Int)
  else ((n % 4294967296 : Nat) : Int) - 4294967296

/-- One 16-bit little-endian sample, `int16(b0) | int16(b1)<<8`
(the shift wraps inside the 16-bit register). -/
def decode16 (b0 b1 : Nat) : Int :=
  toInt16 (b0 ||| (b1 <<< 8))

/-- One 24-bit little-endian sample with the source's sign-extension step:
`s := int32(b0) | int32(b1)<<8 | int32(b2)<<16`; when `s & 0x00800000 > 0`
the code ors in `^0x00FFFFFF` (bit pattern `0xFF000000`) before the `int32`
is read. -/
def decode24 (b0 b1 b2 : Nat) : Int :=
  if ((b0 ||| (b1 <<< 8) ||| (b2 <<< 16)) &&& 0x00800000) > 0 then
    toInt32 ((b0 ||| (b1 <<< 8) ||| (b2 <<< 16)) ||| 0xFF000000)
  else
    toInt32 (b0 ||| (b1 <<< 8) ||| (b2 <<< 16))

/-- One 32-bit little-endian sample,
`int32(b0) | int32(b1)<<8 | int32(b2)<<16 | int32(b3)<<24`. -/
def decode32 (b0 b1 b2 b3 : Nat) : Int :=
  toInt32 (b0 ||| (b1 <<< 8) ||| (b2 <<< 16) ||| (b3 <<< 24))

/-- `convert16BitToFloat32`: walks the byte slice two bytes at a time
(`length := len(sample) / 2` iterations), dividing each decoded sample by
32768.0.  The pool fast path only changes where the output buffer comes
from, not its contents. -/
def convert16BitToFloat32 : List Nat → List ℚ
  | b0 :: b1 :: rest => ((decode16 b0 b1 : ℚ) / 32768) :: convert16BitToFloat32 rest
  | _ => []

/-- `convert24BitToFloat32`: three bytes per sample, divisor 8388608.0. -/
def convert24BitToFloat32 : List Nat → List ℚ
  | b0 :: b1 :: b2 :: rest =>
      ((decode24 b0 b1 b2 : ℚ) / 8388608) :: convert24BitToFloat32 rest
  | _ => []

/-- `convert32BitToFloat32`: four bytes per sample, divisor 2147483648.0.
The division is modelled pre-rounding: Go first converts the `int32` sample
to `float32` (24 significant bits, round to nearest even), which sends every
sample in [2147483584, 2147483647] to 2147483648.0 and hence the produced
float to exactly 1.0; this model returns the exact quotient instead. -/
def convert32BitToFloat32 : List Nat → List ℚ
  | b0 :: b1 :: b2 :: b3 :: rest =>
      ((decode32 b0 b1 b2 b3 : ℚ) / 2147483648) :: convert32BitToFloat32 rest
  | _ => []

/-- The validation error built for an unsupported depth, mirroring the
`errors.Newf(...).Component(...).Category(...).Context(...)...Build()` chain. -/
structure ConversionError where
  message : String
  component : String
  category : String
  contexts : List (String × String)
deriving DecidableEq, Repr

def unsupportedBitDepthError (bitDepth : Int) : ConversionError :=
  { message := "unsupported audio bit depth: " ++ toString bitDepth
    component := "myaudio"
    category := "validation"
    contexts := [("operation", "convert_to_float32"),
                 ("bit_depth", toString bitDepth),
                 ("supported_bit_depths", "16,24,32")] }

/-- `ConvertToFloat32` converts a byte slice to a 2D slice of float samples;
supported bit depths are 16, 24 and 32, anything else is a validation error. -/
def ConvertToFloat32 (sample : List Nat) (bitDepth : Int) :
    Except ConversionError (List (List ℚ)) :=
  if bitDepth = 16 then .ok [convert16BitToFloat32 sample]
  else if bitDepth = 24 then .ok [convert24BitToFloat32 sample]
  else if bitDepth = 32 then .ok [convert32BitToFloat32 sample]
  else .error (unsupportedBitDepthError bitDepth)

/-- Little-endian two's-complement byte encoding of a 16-bit signed value
(the spec's round-trip test-vector generator). -/
def encode16 (v : Int) : List Nat :=
  [(v % 65536).toNat % 256, (v % 65536).toNat / 256 % 256]

/-- Little-endian two's-complement byte encoding of a 24-bit signed value. -/
def encode24 (v : Int) : List Nat :=
  [(v % 16777216).toNat % 256,
   (v % 16777216).toNat / 256 % 256,
   (v % 16777216).toNat / 65536 % 256]

/-- Little-endian two's-complement byte encoding of a 32-bit signed value. -/
def encode32 (v : Int) : List Nat :=
  [(v % 4294967296).toNat % 256,
   (v % 4294967296).toNat / 256 % 256,
   (v % 4294967296).toNat / 65536 % 256,
   (v % 4294967296).toNat / 16777216 % 256]

theorem lor_shiftLeft_eq (x y n : Nat) (h : x < 2 ^ n) :
    x ||| (y <<< n) = x + y * 2 ^ n := by
  rw [Nat.lor_comm, Nat.shiftLeft_eq, Nat.mul_comm y, ← Nat.mul_add_lt_is_or h,
    Nat.add_comm, Nat.mul_comm]

theorem decode16_encode16 (v : Int) (h1 : -32768 ≤ v) (h2 : v < 32768) :
    decode16 ((v % 65536).toNat % 256) ((v % 65536).toNat / 256 % 256) = v := by
  have hp : (2 : Nat) ^ 8 = 256 := by norm_num
  have ha : (v % 65536).toNat % 256 < 2 ^ 8 := by omega
  rw [decode16, lor_shiftLeft_eq _ _ _ ha, toInt16, hp]
  split <;> omega

theorem decode32_encode32 (v : Int) (h1 : -2147483648 ≤ v) (h2 : v < 2147483648) :
    decode32 ((v % 4294967296).toNat % 256) ((v % 4294967296).toNat / 256 % 256)
      ((v % 4294967296).toNat / 65536 % 256) ((v % 4294967296).toNat / 16777216 % 256) = v := by
  have hp8 : (2 : Nat) ^ 8 = 256 := by norm_num
  have hp16 : (2 : Nat) ^ 16 = 65536 := by norm_num
  have hp24 : (2 : Nat) ^ 24 = 16777216 := by norm_num
  have ha : (v % 4294967296).toNat % 256 < 2 ^ 8 := by omega
  have hb : (v % 4294967296).toNat % 256 +
      (v % 4294967296).toNat / 256 % 256 * 2 ^ 8 < 2 ^ 16 := by omega
  have hc : (v % 4294967296).toNat % 256 +
      (v % 4294967296).toNat / 256 % 256 * 2 ^ 8 +
      (v % 4294967296).toNat / 65536 % 256 * 2 ^ 16 < 2 ^ 24 := by omega
  rw [decode32, lor_shiftLeft_eq _ _ _ ha, lor_shiftLeft_eq _ _ _ hb,
    lor_shiftLeft_eq _ _ _ hc, toInt32, hp8, hp16, hp24]
  split <;> omega

theorem decode24_encode24 (v : Int) (h1 : -8388608 ≤ v) (h2 : v < 8388608) :
    decode24 ((v % 16777216).toNat % 256) ((v % 16777216).toNat / 256 % 256)
      ((v % 16777216).toNat / 65536 % 256) = v := by
  have hp8 : (2 : Nat) ^ 8 = 256 := by norm_num
  have hp16 : (2 : Nat) ^ 16 = 65536 := by norm_num
  have ha : (v % 16777216).toNat % 256 < 2 ^ 8 := by omega
  have hb : (v % 16777216).toNat % 256 +
      (v % 16777216).toNat / 256 % 256 * 2 ^ 8 < 2 ^ 16 := by omega
  rw [decode24, lor_shiftLeft_eq _ _ _ ha, lor_shiftLeft_eq _ _ _ hb, hp8, hp16]
  set u := (v % 16777216).toNat with hu
  have hs : u % 256 + u / 256 % 256 * 256 + u / 65536 % 256 * 65536 = u := by omega
  rw [hs]
  have hand : u &&& 8388608 = (u.testBit 23).toNat * 8388608 := by
    have h := Nat.and_two_pow u 23
    norm_num at h
    exact h
  have htb : u.testBit 23 = decide (u / 8388608 % 2 = 1) := by
    have h := Nat.testBit_to_div_mod (x := u) (i := 23)
    norm_num at h
    exact h
  have hlor : u ||| 4278190080 = u + 4278190080 := by
    have h255 : (255 : Nat) <<< 24 = 4278190080 := by norm_num [Nat.shiftLeft_eq]
    have h := lor_shiftLeft_eq u 255 24 (by omega : u < 2 ^ 24)
    rw [h255] at h
    rw [h]
    norm_num
  by_cases hcase : u / 8388608 % 2 = 1
  · rw [if_pos (by rw [hand, htb]; simp [hcase]), hlor, toInt32]
    split <;> omega
  · rw [if_neg (by rw [hand, htb]; simp [hcase]), toInt32]
    split <;> omega

theorem convert16_cons (b0 b1 : Nat) (rest : List Nat) :
    convert16BitToFloat32 (b0 :: b1 :: rest) =
      ((decode16 b0 b1 : ℚ) / 32768) :: convert16BitToFloat32 rest := by
  rw [convert16BitToFloat32]

theorem convert16_nil : convert16BitToFloat32 [] = [] := by
  rw [convert16BitToFloat32] <;> (intros; simp_all)

theorem convert16_one (b0 : Nat) : convert16BitToFloat32 [b0] = [] := by
  rw [convert16BitToFloat32] <;> (intros; simp_all)

theorem convert24_cons (b0 b1 b2 : Nat) (rest : List Nat) :
    convert24BitToFloat32 (b0 :: b1 :: b2 :: rest) =
      ((decode24 b0 b1 b2 : ℚ) / 8388608) :: convert24BitToFloat32 rest := by
  rw [convert24BitToFloat32]

theorem convert24_short (l : List Nat) (h : l.length < 3) :
    convert24BitToFloat32 l = [] := by
  match l, h with
  | [], _ => rw [convert24BitToFloat32] <;> (intros; simp_all)
  | [b0], _ => rw [convert24BitToFloat32] <;> (intros; simp_all)
  | [b0, b1], _ => rw [convert24BitToFloat32] <;> (intros; simp_all)

theorem convert32_cons (b0 b1 b2 b3 : Nat) (rest : List Nat) :
    convert32BitToFloat32 (b0 :: b1 :: b2 :: b3 :: rest) =
      ((decode32 b0 b1 b2 b3 : ℚ) / 2147483648) :: convert32BitToFloat32 rest := by
  rw [convert32BitToFloat32]

theorem convert32_short (l : List Nat) (h : l.length < 4) :
    convert32BitToFloat32 l = [] := by
  match l, h with
  | [], _ => rw [convert32BitToFloat32] <;> (intros; simp_all)
  | [b0], _ => rw [convert32BitToFloat32] <;> (intros; simp_all)
  | [b0, b1], _ => rw [convert32BitToFloat32] <;> (intros; simp_all)
  | [b0, b1, b2], _ => rw [convert32BitToFloat32] <;> (intros; simp_all)

/-- C2: for each bit depth d ∈ {16, 24, 32} and every valid signed sample
value v of that depth, encoding v into its little-endian two's-complement
byte layout and applying `ConvertToFloat32` yields v / maxMagnitude with
maxMagnitude 32768, 8388608, 2147483648 respectively; the 24-bit path
sign-extends every 3-byte sample whose bit 23 is set (negative values are
recovered exactly). -/
theorem convertEncodedSampleRoundTrip (v : Int) :
    (-32768 ≤ v ∧ v < 32768 →
      ConvertToFloat32 (encode16 v) 16 = .ok [[(v : ℚ) / 32768]]) ∧
    (-8388608 ≤ v ∧ v < 8388608 →
      ConvertToFloat32 (encode24 v) 24 = .ok [[(v : ℚ) / 8388608]]) ∧
    (-2147483648 ≤ v ∧ v < 2147483648 →
      ConvertToFloat32 (encode32 v) 32 = .ok [[(v : ℚ) / 2147483648]]) := by
  refine ⟨fun ⟨h1, h2⟩ => ?_, fun ⟨h1, h2⟩ => ?_, fun ⟨h1, h2⟩ => ?_⟩
  · rw [ConvertToFloat32, if_pos rfl, encode16, convert16_cons, convert16_nil,
      decode16_encode16 v h1 h2]
  · rw [ConvertToFloat32, if_neg (by norm_num), if_pos rfl, encode24, convert24_cons,
      convert24_short [] (by simp), decode24_encode24 v h1 h2]
  · rw [ConvertToFloat32, if_neg (by norm_num), if_neg (by norm_num), if_pos rfl,
      encode32, convert32_cons, convert32_short [] (by simp), decode32_encode32 v h1 h2]

/-- Closed witness for `convertEncodedSampleRoundTrip` at v = -1: the all-ones
byte patterns decode back to -1 at every depth (in particular the 24-bit
sample 0xFFFFFF is sign-extended). -/
theorem convertEncodedSampleRoundTrip_witness :
    ConvertToFloat32 [255, 255] 16 = .ok [[(-1 : ℚ) / 32768]] ∧
    ConvertToFloat32 [255, 255, 255] 24 = .ok [[(-1 : ℚ) / 8388608]] ∧
    ConvertToFloat32 [255, 255, 255, 255] 32 = .ok [[(-1 : ℚ) / 2147483648]] := by
  obtain ⟨p16, p24, p32⟩ := convertEncodedSampleRoundTrip (-1)
  refine ⟨?_, ?_, ?_⟩
  · have h := p16 (by norm_num)
    rw [show encode16 (-1) = [255, 255] from by decide] at h
    exact h
  · have h := p24 (by norm_num)
    rw [show encode24 (-1) = [255, 255, 255] from by decide] at h
    exact h
  · have h := p32 (by norm_num)
    rw [show encode32 (-1) = [255, 255, 255, 255] from by decide] at h
    exact h

/-- C3: `ConvertToFloat32` succeeds exactly for bit depths 16, 24 and 32;
every other depth yields the validation error (and no result). -/
theorem convertSupportedDepths (sample : List Nat) (d : Int) :
    ((∃ r, ConvertToFloat32 sample d = .ok r) ↔ (d = 16 ∨ d = 24 ∨ d = 32)) ∧
    (¬(d = 16 ∨ d = 24 ∨ d = 32) →
      ConvertToFloat32 sample d = .error (unsupportedBitDepthError d)) := by
  constructor
  · constructor
    · intro ⟨r, hr⟩
      by_contra hnot
      push_neg at hnot
      rw [ConvertToFloat32, if_neg hnot.1, if_neg hnot.2.1, if_neg hnot.2.2] at hr
      exact Except.noConfusion hr
    · rintro (h | h | h) <;> subst h
      · exact ⟨_, by rw [ConvertToFloat32, if_pos rfl]⟩
      · exact ⟨_, by rw [ConvertToFloat32, if_neg (by norm_num), if_pos rfl]⟩
      · exact ⟨_, by rw [ConvertToFloat32, if_neg (by norm_num), if_neg (by norm_num),
          if_pos rfl]⟩
  · intro hnot
    push_neg at hnot
    rw [ConvertToFloat32, if_neg hnot.1, if_neg hnot.2.1, if_neg hnot.2.2]

/-- Closed witness for `convertSupportedDepths`: depth 8 is rejected with the
validation error. -/
theorem convertSupportedDepths_witness :
    ConvertToFloat32 [0, 1] 8 = .error (unsupportedBitDepthError 8) :=
  (convertSupportedDepths [0, 1] 8).2 (by norm_num)

/-- C10: every successful conversion returns exactly one channel: the outer
list has length 1 for each supported depth. -/
theorem convertSingleChannel (sample : List Nat) (d : Int) (r : List (List ℚ))
    (h : ConvertToFloat32 sample d = .ok r) : r.length = 1 := by
  rw [ConvertToFloat32] at h
  split at h
  · cases h; rfl
  · split at h
    · cases h; rfl
    · split at h
      · cases h; rfl
      · exact Except.noConfusion h

/-- Closed witness for `convertSingleChannel` on a concrete 4-byte 16-bit
input. -/
theorem convertSingleChannel_witness :
    ∃ r, ConvertToFloat32 [1, 2, 3, 4] 16 = .ok r ∧ r.length = 1 := by
  refine ⟨[convert16BitToFloat32 [1, 2, 3, 4]], rfl, ?_⟩
  exact convertSingleChannel [1, 2, 3, 4] 16 _ rfl

theorem convert16_length : ∀ l : List Nat, (convert16BitToFloat32 l).length = l.length / 2
  | b0 :: b1 :: rest => by
    rw [convert16_cons]
    simp only [List.length_cons, convert16_length rest]
    omega
  | [] => by rw [convert16_nil]; simp
  | [b0] => by rw [convert16_one]; simp

theorem convert24_length : ∀ l : List Nat, (convert24BitToFloat32 l).length = l.length / 3
  | b0 :: b1 :: b2 :: rest => by
    rw [convert24_cons]
    simp only [List.length_cons, convert24_length rest]
    omega
  | [] => by rw [convert24_short [] (by simp)]; simp
  | [b0] => by rw [convert24_short [b0] (by simp)]; simp
  | [b0, b1] => by rw [convert24_short [b0, b1] (by simp)]; simp

theorem convert32_length : ∀ l : List Nat, (convert32BitToFloat32 l).length = l.length / 4
  | b0 :: b1 :: b2 :: b3 :: rest => by
    rw [convert32_cons]
    simp only [List.length_cons, convert32_length rest]
    omega
  | [] => by rw [convert32_short [] (by simp)]; simp
  | [b0] => by rw [convert32_short [b0] (by simp)]; simp
  | [b0, b1] => by rw [convert32_short [b0, b1] (by simp)]; simp
  | [b0, b1, b2] => by rw [convert32_short [b0, b1, b2] (by simp)]; simp

theorem convert16_append : ∀ l : List Nat, l.length % 2 = 0 →
    ∀ extra : List Nat, extra.length < 2 →
    convert16BitToFloat32 (l ++ extra) = convert16BitToFloat32 l
  | [], _, extra, hx => by
    match extra, hx with
    | [], _ => rfl
    | [b], _ => rw [List.nil_append, convert16_one, convert16_nil]
  | b0 :: b1 :: rest, h, extra, hx => by
    rw [List.cons_append, List.cons_append, convert16_cons, convert16_cons,
      convert16_append rest (by simp only [List.length_cons] at h; omega) extra hx]
  | [b0], h, _, _ => by simp at h

theorem convert24_append : ∀ l : List Nat, l.length % 3 = 0 →
    ∀ extra : List Nat, extra.length < 3 →
    convert24BitToFloat32 (l ++ extra) = convert24BitToFloat32 l
  | [], _, extra, hx => by
    rw [List.nil_append, convert24_short extra hx, convert24_short [] (by simp)]
  | b0 :: b1 :: b2 :: rest, h, extra, hx => by
    rw [List.cons_append, List.cons_append, List.cons_append, convert24_cons,
      convert24_cons, convert24_append rest (by simp only [List.length_cons] at h; omega) extra hx]
  | [b0], h, _, _ => by simp at h
  | [b0, b1], h, _, _ => by simp at h

theorem convert32_append : ∀ l : List Nat, l.length % 4 = 0 →
    ∀ extra : List Nat, extra.length < 4 →
    convert32BitToFloat32 (l ++ extra) = convert32BitToFloat32 l
  | [], _, extra, hx => by
    rw [List.nil_append, convert32_short extra hx, convert32_short [] (by simp)]
  | b0 :: b1 :: b2 :: b3 :: rest, h, extra, hx => by
    rw [List.cons_append, List.cons_append, List.cons_append, List.cons_append,
      convert32_cons, convert32_cons, convert32_append rest (by simp only [List.length_cons] at h; omega) extra hx]
  | [b0], h, _, _ => by simp at h
  | [b0, b1], h, _, _ => by simp at h
  | [b0, b1, b2], h, _, _ => by simp at h

theorem convertToFloat32_16 (l : List Nat) :
    ConvertToFloat32 l 16 = .ok [convert16BitToFloat32 l] := by
  rw [ConvertToFloat32, if_pos rfl]

theorem convertToFloat32_24 (l : List Nat) :
    ConvertToFloat32 l 24 = .ok [convert24BitToFloat32 l] := by
  rw [ConvertToFloat32, if_neg (by norm_num), if_pos rfl]

theorem convertToFloat32_32 (l : List Nat) :
    ConvertToFloat32 l 32 = .ok [convert32BitToFloat32 l] := by
  rw [ConvertToFloat32, if_neg (by norm_num), if_neg (by norm_num), if_pos rfl]

/-- C9: for every input byte slice (also lengths that are not a multiple of
the sample size) `ConvertToFloat32` succeeds at each supported depth and
converts exactly ⌊len/bytesPerSample⌋ samples; bytes past the last full
sample never change the result (appending fewer than one sample's worth of
trailing bytes to an aligned slice leaves the output unchanged). -/
theorem convertIgnoresTrailingBytes (l extra : List Nat) :
    (∃ r, ConvertToFloat32 l 16 = .ok r ∧ r.map List.length = [l.length / 2]) ∧
    (∃ r, ConvertToFloat32 l 24 = .ok r ∧ r.map List.length = [l.length / 3]) ∧
    (∃ r, ConvertToFloat32 l 32 = .ok r ∧ r.map List.length = [l.length / 4]) ∧
    (l.length % 2 = 0 → extra.length < 2 →
      ConvertToFloat32 (l ++ extra) 16 = ConvertToFloat32 l 16) ∧
    (l.length % 3 = 0 → extra.length < 3 →
      ConvertToFloat32 (l ++ extra) 24 = ConvertToFloat32 l 24) ∧
    (l.length % 4 = 0 → extra.length < 4 →
      ConvertToFloat32 (l ++ extra) 32 = ConvertToFloat32 l 32) := by
  refine ⟨?_, ?_, ?_, fun h hx => ?_, fun h hx => ?_, fun h hx => ?_⟩
  · exact ⟨_, convertToFloat32_16 l, by simp [convert16_length l]⟩
  · exact ⟨_, convertToFloat32_24 l, by simp [convert24_length l]⟩
  · exact ⟨_, convertToFloat32_32 l, by simp [convert32_length l]⟩
  · rw [convertToFloat32_16, convertToFloat32_16, convert16_append l h extra hx]
  · rw [convertToFloat32_24, convertToFloat32_24, convert24_append l h extra hx]
  · rw [convertToFloat32_32, convertToFloat32_32, convert32_append l h extra hx]

/-- Closed witness for `convertIgnoresTrailingBytes`: a 3-byte slice at depth
16 converts one sample, and the odd trailing byte is ignored. -/
theorem convertIgnoresTrailingBytes_witness :
    (∃ r, ConvertToFloat32 [7, 1, 99] 16 = .ok r ∧ r.map List.length = [1]) ∧
    ConvertToFloat32 ([7, 1] ++ [99]) 16 = ConvertToFloat32 [7, 1] 16 := by
  obtain ⟨⟨r, hr, hlen⟩, -, -, -, -, -⟩ := convertIgnoresTrailingBytes [7, 1, 99] []
  obtain ⟨-, -, -, happ, -, -⟩ := convertIgnoresTrailingBytes [7, 1] [99]
  exact ⟨⟨r, hr, hlen⟩, happ (by decide) (by decide)⟩

/-- C5 (code-bug evidence at the failing input): for the depth-32 input
FF FF FF 7F (sample value 2147483647) the embedded converter returns the
pre-rounding quotient 2147483647/2147483648, which is below 1.  The program
divides only after converting the `int32` to `float32`: near 2^31 the
`float32`-representable values are the multiples of 2^7 = 128, the sample
2147483647 is not one of them, and of its two representable neighbours
2147483520 and 2147483648 round-to-nearest picks 2147483648 — so the
program's `float32(sample) / 2147483648.0` is exactly 1.0, outside the
claimed half-open interval [-1, 1). -/
theorem convert32MaxSampleRoundsToOne :
    ConvertToFloat32 [255, 255, 255, 127] 32
      = .ok [[(2147483647 : ℚ) / 2147483648]] ∧
    (2147483647 : Nat) % 128 ≠ 0 ∧
    (2147483520 : Nat) % 128 = 0 ∧
    (2147483648 : Nat) % 128 = 0 ∧
    (2147483648 : Nat) - 2147483647 < 2147483647 - 2147483520 ∧
    (2147483648 : ℚ) / 2147483648 = 1 := by
  have hd : decode32 255 255 255 127 = 2147483647 := by decide
  refine ⟨?_, by norm_num, by norm_num, by norm_num, by norm_num, by norm_num⟩
  rw [convertToFloat32_32, convert32_cons, convert32_short [] (by simp), hd]
  norm_num

end Myaudio

namespace Ffmpeg

/-- Snapshot of the inputs one `FFmpegMonitor.checkProcesses` pass reads: the
process repository (URL ↦ OS pid of the registered decoder), the configured
URL set (`GetConfiguredURLs`), the OS-enumerated decoder processes
(`FindProcesses`), and the per-pid liveness probe (`IsProcessRunning`). -/
structure MonitorState where
  registry : List (String × Nat)
  configuredURLs : List String
  osPIDs : List Nat
  alive : Nat → Bool

/-- Observable effects of one pass: the URLs whose `Cleanup` was invoked and
the pids passed to `TerminateProcess`. -/
structure MonitorEffects where
  cleaned : List String
  terminated : List Nat

/-- First loop of `checkProcesses`: registry entries whose URL is not in the
configured set have `Cleanup(url)` invoked. -/
def configDriftCleanups (st : MonitorState) : List String :=
  (st.registry.filter fun e => decide (e.1 ∉ st.configuredURLs)).map fun e => e.1

/-- One insertion into the `pidToURL` Go map: a later write to an existing
pid key overwrites, otherwise the binding is added. -/
def insertPidURL (acc : List (Nat × String)) (pid : Nat) (url : String) :
    List (Nat × String) :=
  if acc.any fun p => p.1 == pid then
    acc.map fun p => if p.1 == pid then (pid, url) else p
  else acc ++ [(pid, url)]

/-- The `pidToURL` map `cleanupOrphanedProcesses` builds over the registry. -/
def pidToURL (registry : List (String × Nat)) : List (Nat × String) :=
  registry.foldl (fun acc e => insertPidURL acc e.2 e.1) []

/-- Externally-killed detection: entries of `pidToURL` whose pid the OS lists
(`systemPIDs[pid]`) but whose liveness probe fails have `Cleanup(url)`
invoked. -/
def externallyKilledCleanups (st : MonitorState) : List String :=
  ((pidToURL st.registry).filter fun p =>
    decide (p.1 ∈ st.osPIDs) && !st.alive p.1).map fun p => p.2

/-- Leaked-process reaping: OS-enumerated decoder pids absent from
`knownPIDs` (the registered pids) are passed to `TerminateProcess`. -/
def orphanTerminations (st : MonitorState) : List Nat :=
  st.osPIDs.filter fun pid => decide (pid ∉ st.registry.map fun e => e.2)

/-- One `FFmpegMonitor.checkProcesses` pass: the configuration-drift loop
followed by `cleanupOrphanedProcesses` (externally-killed cleanup, then
orphan termination). -/
def checkProcesses (st : MonitorState) : MonitorEffects :=
  { cleaned := configDriftCleanups st ++ externallyKilledCleanups st
    terminated := orphanTerminations st }

theorem pidToURL_go (reg : List (String × Nat)) :
    ∀ acc : List (Nat × String), (reg.map fun e => e.2).Nodup →
    (∀ p ∈ acc, (p.1 ∉ reg.map fun e => e.2)) →
    reg.foldl (fun acc e => insertPidURL acc e.2 e.1) acc
      = acc ++ reg.map fun e => (e.2, e.1) := by
  induction reg with
  | nil => intro acc _ _; simp
  | cons hd tl ih =>
    intro acc hnd hdis
    rw [List.map_cons] at hnd
    obtain ⟨hhd, htl⟩ := List.nodup_cons.mp hnd
    have hnotin : (acc.any fun p => p.1 == hd.2) = false := by
      rw [List.any_eq_false]
      intro p hp
      have := hdis p hp
      simp only [List.map_cons, List.mem_cons, not_or] at this
      simpa using this.1
    simp only [List.foldl_cons]
    rw [show insertPidURL acc hd.2 hd.1 = acc ++ [(hd.2, hd.1)] from by
      rw [insertPidURL, hnotin]; simp]
    rw [ih (acc ++ [(hd.2, hd.1)]) htl ?_]
    · simp
    · intro p hp
      rcases List.mem_append.mp hp with h | h
      · have := hdis p h
        simp only [List.map_cons, List.mem_cons, not_or] at this
        exact this.2
      · have : p = (hd.2, hd.1) := by simpa using h
        subst this
        exact hhd

theorem pidToURL_eq_of_nodup (reg : List (String × Nat))
    (hnd : (reg.map fun e => e.2).Nodup) :
    pidToURL reg = reg.map fun e => (e.2, e.1) := by
  have h := pidToURL_go reg [] hnd (by simp)
  simpa [pidToURL] using h

/-- C4: after one reconciliation pass of the FFmpeg process monitor, (c)
every registered entry whose URL is not configured has `Cleanup` invoked;
(d) every registered process whose pid the OS lists but which fails the
liveness probe has `Cleanup` invoked (given the registry invariant that no
two entries share a pid); (e) every OS-enumerated decoder pid absent from
the registry is force-terminated. -/
theorem checkProcessesReconciles (st : MonitorState) :
    (∀ url pid, (url, pid) ∈ st.registry → url ∉ st.configuredURLs →
      url ∈ (checkProcesses st).cleaned) ∧
    ((st.registry.map fun e => e.2).Nodup →
      ∀ url pid, (url, pid) ∈ st.registry → pid ∈ st.osPIDs →
      st.alive pid = false → url ∈ (checkProcesses st).cleaned) ∧
    (∀ pid ∈ st.osPIDs, (pid ∉ st.registry.map fun e => e.2) →
      pid ∈ (checkProcesses st).terminated) := by
  refine ⟨fun url pid hmem hncfg => ?_, fun hnd url pid hmem hos hdead => ?_,
    fun pid hos hnreg => ?_⟩
  · apply List.mem_append_left
    simp only [configDriftCleanups, List.mem_map, List.mem_filter]
    exact ⟨(url, pid), ⟨hmem, by simpa using hncfg⟩, rfl⟩
  · apply List.mem_append_right
    simp only [externallyKilledCleanups, List.mem_map, List.mem_filter,
      pidToURL_eq_of_nodup st.registry hnd]
    refine ⟨(pid, url), ⟨⟨(url, pid), hmem, rfl⟩, ?_⟩, rfl⟩
    simp [hos, hdead]
  · simp only [checkProcesses, orphanTerminations, List.mem_filter]
    exact ⟨hos, by simpa using hnreg⟩

/-- Closed witness for `checkProcessesReconciles`, the spec's scenario:
registered source "A" (pid 100) is OS-listed but fails the liveness probe,
and the OS also lists unregistered decoder pid 1234; one pass cleans up "A"
and terminates 1234. -/
theorem checkProcessesReconciles_witness :
    "A" ∈ (checkProcesses ⟨[("A", 100)], ["A"], [100, 1234],
      fun _ => false⟩).cleaned ∧
    1234 ∈ (checkProcesses ⟨[("A", 100)], ["A"], [100, 1234],
      fun _ => false⟩).terminated := by
  obtain ⟨-, h2, h3⟩ := checkProcessesReconciles
    ⟨[("A", 100)], ["A"], [100, 1234], fun _ => false⟩
  exact ⟨h2 (by simp) "A" 100 (by simp) (by simp) rfl,
    h3 1234 (by simp) (by simp)⟩

end Ffmpeg

namespace Birdnet

/-- `birdnet.Results`, the dispatch-queue entry `ProcessData` builds:
start time, elapsed inference time, PCM bytes, inference results, source. -/
structure Results where
  startTime : Nat
  elapsedTime : Nat
  pcmData : List Nat
  results : List (String × ℚ)
  source : String

/-- Modelled from the spec: the declaration of `birdnet.ResultsQueue` (a
bounded buffered channel) is not among these sources, only its producer in
`ProcessData` is; per §4.6 it is a bounded FIFO of fixed capacity whose
overflow events are counted/logged.  `buffer` holds queued entries
oldest-first, `drops` counts the drop events. -/
structure ResultsQueue where
  capacity : Nat
  buffer : List Results
  drops : Nat

/-- The non-blocking enqueue at the end of `ProcessData` (`select` with a
`default` branch): a send on a buffered channel with free capacity appends
the entry; otherwise the `default` branch runs, dropping the newly produced
entry and logging the queue-full event.  Totality of this function is the
never-blocks property. -/
def enqueueResult (q : ResultsQueue) (e : Results) : ResultsQueue :=
  if q.buffer.length < q.capacity then { q with buffer := q.buffer ++ [e] }
  else { q with drops := q.drops + 1 }

/-- Feeding a sequence of finished analysis results to the queue with no
consumer running. -/
def enqueueAll (q : ResultsQueue) (es : List Results) : ResultsQueue :=
  es.foldl enqueueResult q

theorem enqueueAll_spec (es : List Results) : ∀ q : ResultsQueue,
    (enqueueAll q es).capacity = q.capacity ∧
    (enqueueAll q es).buffer = q.buffer ++ es.take (q.capacity - q.buffer.length) ∧
    (enqueueAll q es).drops
      = q.drops + (es.length - (q.capacity - q.buffer.length)) := by
  induction es with
  | nil => intro q; simp [enqueueAll]
  | cons e rest ih =>
    intro q
    have hstep : enqueueAll q (e :: rest) = enqueueAll (enqueueResult q e) rest := rfl
    by_cases hlt : q.buffer.length < q.capacity
    · have hq : enqueueResult q e = { q with buffer := q.buffer ++ [e] } := by
        rw [enqueueResult, if_pos hlt]
      obtain ⟨hc, hb, hd⟩ := ih { q with buffer := q.buffer ++ [e] }
      rw [hstep, hq]
      obtain ⟨k, hk⟩ : ∃ k, q.capacity - q.buffer.length = k + 1 :=
        ⟨q.capacity - q.buffer.length - 1, by omega⟩
      refine ⟨hc, ?_, ?_⟩
      · rw [hb, hk, List.take_succ_cons]
        simp only [List.length_append, List.length_cons, List.length_nil]
        rw [show q.capacity - (q.buffer.length + 1) = k from by omega, List.append_assoc]
        rfl
      · rw [hd]
        simp only [List.length_append, List.length_cons, List.length_nil]
        rw [show q.capacity - (q.buffer.length + 1) = k from by omega]
        omega
    · have hq : enqueueResult q e = { q with drops := q.drops + 1 } := by
        rw [enqueueResult, if_neg hlt]
      obtain ⟨hc, hb, hd⟩ := ih { q with drops := q.drops + 1 }
      rw [hstep, hq]
      have hz : q.capacity - q.buffer.length = 0 := by omega
      refine ⟨hc, ?_, ?_⟩
      · rw [hb]
        simp [hz]
      · rw [hd]
        simp only [List.length_cons]
        omega

/-- C1: enqueueing a finished analysis result never blocks: with free
capacity the entry is appended in FIFO order (no drop recorded); on a full
queue the newest entry is dropped, the queue contents stay unchanged and the
drop counter increments by one; and a queue of capacity 100 fed 150 entries
with no consumer retains exactly the first 100 entries and records 50
drops. -/
theorem enqueueNeverBlocks (q : ResultsQueue) (e : Results) (es : List Results) :
    (q.buffer.length < q.capacity →
      enqueueResult q e = { q with buffer := q.buffer ++ [e] }) ∧
    (¬ q.buffer.length < q.capacity →
      enqueueResult q e = { q with drops := q.drops + 1 }) ∧
    (es.length = 150 →
      (enqueueAll ⟨100, [], 0⟩ es).buffer = es.take 100 ∧
      (enqueueAll ⟨100, [], 0⟩ es).buffer.length = 100 ∧
      (enqueueAll ⟨100, [], 0⟩ es).drops = 50) := by
  refine ⟨fun hlt => by rw [enqueueResult, if_pos hlt],
    fun hge => by rw [enqueueResult, if_neg hge], fun hlen => ?_⟩
  obtain ⟨-, hb, hd⟩ := enqueueAll_spec es ⟨100, [], 0⟩
  simp only [List.nil_append, List.length_nil, Nat.sub_zero] at hb hd
  refine ⟨hb, ?_, ?_⟩
  · rw [hb, List.length_take, hlen]
    decide
  · rw [hd, hlen]

/-- Closed witness for `enqueueNeverBlocks`: 150 concrete entries into an
empty capacity-100 queue leave 100 queued and 50 drops. -/
theorem enqueueNeverBlocks_witness :
    (enqueueAll ⟨100, [], 0⟩
      (List.replicate 150 ⟨0, 0, [], [], "rtsp"⟩)).buffer.length = 100 ∧
    (enqueueAll ⟨100, [], 0⟩
      (List.replicate 150 ⟨0, 0, [], [], "rtsp"⟩)).drops = 50 := by
  obtain ⟨-, -, h⟩ := enqueueNeverBlocks ⟨100, [], 0⟩ ⟨0, 0, [], [], "rtsp"⟩
    (List.replicate 150 ⟨0, 0, [], [], "rtsp"⟩)
  obtain ⟨-, hlen, hdrops⟩ := h (by simp)
  exact ⟨hlen, hdrops⟩

end Birdnet

namespace Ffmpeg

/-- `ProcessConfig` of the ffmpeg package (fields as used by its tests). -/
structure ProcessConfig where
  id : String
  inputURL : String
  outputFormat : String
  sampleRate : Nat
  channels : Nat
  bitDepth : Nat
  bufferSize : Nat
  ffmpegPath : String
deriving DecidableEq

inductive CreateProcessError where
  | duplicateID
  | limitExceeded
  | invalidConfig
deriving DecidableEq

/-- The manager's registry of created decoder processes, in creation order,
with the configured `MaxProcesses` limit. -/
structure Manager where
  maxProcesses : Nat
  registry : List ProcessConfig
deriving DecidableEq

/-- `NewManager` starts with an empty registry (`ListProcesses` is empty). -/
def NewManager (maxProcesses : Nat) : Manager :=
  { maxProcesses := maxProcesses, registry := [] }

/-- Modelled from the spec: the ffmpeg `Manager.CreateProcess` implementation
is not among these sources (only its tests are).  Per §4.2 it "validates id
uniqueness and current count < MaxProcesses; registers a new decoder;
returns {DuplicateID, LimitExceeded, InvalidConfig} errors as applicable",
and per §8 a call beyond `MaxProcesses` "always fails with LimitExceeded",
so the count check is decisive at the limit.  The returned manager is the
(possibly unchanged) registry state after the call. -/
def CreateProcess (m : Manager) (cfg : ProcessConfig) :
    Except CreateProcessError ProcessConfig × Manager :=
  if m.maxProcesses ≤ m.registry.length then (.error .limitExceeded, m)
  else if m.registry.any fun p => p.id == cfg.id then (.error .duplicateID, m)
  else (.ok cfg, { m with registry := m.registry ++ [cfg] })

/-- C6: the registry never holds more than `MaxProcesses` entries: a call
made while `MaxProcesses` processes are registered fails with LimitExceeded
and leaves the registry unchanged, and no call grows a within-limit registry
past the limit. -/
theorem createProcessLimit (m : Manager) (cfg : ProcessConfig) :
    (m.registry.length = m.maxProcesses →
      CreateProcess m cfg = (.error .limitExceeded, m)) ∧
    (m.registry.length ≤ m.maxProcesses →
      (CreateProcess m cfg).2.registry.length ≤ m.maxProcesses) := by
  constructor
  · intro hfull
    rw [CreateProcess, if_pos (Nat.le_of_eq hfull.symm)]
  · intro hle
    rw [CreateProcess]
    split
    · exact hle
    · split
      · exact hle
      · simp only [List.length_append, List.length_cons, List.length_nil]
        omega

/-- Closed witness for `createProcessLimit`: a manager with limit 1 holding
one process rejects the next create with LimitExceeded, unchanged. -/
theorem createProcessLimit_witness :
    CreateProcess
      ⟨1, [⟨"process-1", "test1.wav", "s16le", 48000, 2, 16, 1024, "/usr/bin/ffmpeg"⟩]⟩
      ⟨"process-2", "test2.wav", "s16le", 48000, 2, 16, 1024, "/usr/bin/ffmpeg"⟩
    = (.error .limitExceeded,
      ⟨1, [⟨"process-1", "test1.wav", "s16le", 48000, 2, 16, 1024, "/usr/bin/ffmpeg"⟩]⟩) :=
  (createProcessLimit
    ⟨1, [⟨"process-1", "test1.wav", "s16le", 48000, 2, 16, 1024, "/usr/bin/ffmpeg"⟩]⟩
    ⟨"process-2", "test2.wav", "s16le", 48000, 2, 16, 1024, "/usr/bin/ffmpeg"⟩).1 rfl

/-- C7: creating the same id twice: the first call succeeds, the second
returns DuplicateID, the manager state is unchanged by the failing call, and
the registry holds exactly one entry for that id (the first process,
unmodified). -/
theorem createProcessDuplicate (m : Manager) (cfg : ProcessConfig)
    (hfresh : ∀ p ∈ m.registry, p.id ≠ cfg.id)
    (hroom : m.registry.length + 1 < m.maxProcesses) :
    (CreateProcess m cfg).1 = .ok cfg ∧
    (CreateProcess (CreateProcess m cfg).2 cfg).1 = .error .duplicateID ∧
    (CreateProcess (CreateProcess m cfg).2 cfg).2 = (CreateProcess m cfg).2 ∧
    ((CreateProcess m cfg).2.registry.filter fun p => p.id == cfg.id) = [cfg] := by
  have hany : (m.registry.any fun p => p.id == cfg.id) = false := by
    rw [List.any_eq_false]
    intro p hp
    simpa using hfresh p hp
  have h1 : CreateProcess m cfg = (.ok cfg, { m with registry := m.registry ++ [cfg] }) := by
    rw [CreateProcess, if_neg (by omega), hany]
    simp
  have h2 : CreateProcess { m with registry := m.registry ++ [cfg] } cfg
      = (.error .duplicateID, { m with registry := m.registry ++ [cfg] }) := by
    rw [CreateProcess,
      if_neg (by simp only [List.length_append, List.length_cons, List.length_nil]; omega),
      if_pos (by simp)]
  have hfilter : ((m.registry ++ [cfg]).filter fun p => p.id == cfg.id) = [cfg] := by
    rw [List.filter_append]
    have : (m.registry.filter fun p => p.id == cfg.id) = [] := by
      rw [List.filter_eq_nil]
      intro p hp
      simpa using hfresh p hp
    rw [this]
    simp
  rw [h1]
  exact ⟨rfl, by rw [h2], by rw [h2], hfilter⟩

/-- Closed witness for `createProcessDuplicate` at the duplicate-test
configuration from the test suite (limit 10, empty manager). -/
theorem createProcessDuplicate_witness :
    (CreateProcess (NewManager 10)
      ⟨"duplicate-test", "test.wav", "s16le", 48000, 2, 16, 1024, "/usr/bin/ffmpeg"⟩).1
      = .ok ⟨"duplicate-test", "test.wav", "s16le", 48000, 2, 16, 1024, "/usr/bin/ffmpeg"⟩ ∧
    (CreateProcess
      (CreateProcess (NewManager 10)
        ⟨"duplicate-test", "test.wav", "s16le", 48000, 2, 16, 1024, "/usr/bin/ffmpeg"⟩).2
      ⟨"duplicate-test", "test.wav", "s16le", 48000, 2, 16, 1024, "/usr/bin/ffmpeg"⟩).1
      = .error .duplicateID := by
  obtain ⟨ha, hb, -, -⟩ := createProcessDuplicate (NewManager 10)
    ⟨"duplicate-test", "test.wav", "s16le", 48000, 2, 16, 1024, "/usr/bin/ffmpeg"⟩
    (by intro p hp; simp [NewManager] at hp) (by simp [NewManager])
  exact ⟨ha, hb⟩

/-- `RestartPolicy` of the ffmpeg package.  Delays are in seconds, modelled
as exact rationals (Go stores nanosecond `int64` durations and multiplies
through `float64`; for these parameter values that arithmetic is exact). -/
structure RestartPolicy where
  enabled : Bool
  maxRetries : Nat
  initialDelay : ℚ
  maxDelay : ℚ
  backoffMultiplier : ℚ

/-- Modelled from the spec: the managed process's restart scheduling is not
among these sources (only `TestRestartPolicy` is).  Per §4.1 a restart is
scheduled on unexpected exit exactly when the policy is enabled and
`restartCount < MaxRetries`. -/
def shouldRestart (p : RestartPolicy) (restartCount : Nat) : Bool :=
  p.enabled && restartCount < p.maxRetries

/-- Modelled from the spec: the delay scheduled before the (n+1)-st restart;
it starts at `InitialDelay` and after each failure is updated to
`min(nextDelay × BackoffMultiplier, MaxDelay)`. -/
def restartDelay (p : RestartPolicy) : Nat → ℚ
  | 0 => p.initialDelay
  | n + 1 => min (restartDelay p n * p.backoffMultiplier) p.maxDelay

/-- C8: with InitialDelay=1s, BackoffMultiplier=2.0, MaxDelay=30s the
successive restart delays are 1, 2, 4, 8, 16, 30, 30, ... seconds — each
next delay is min(previous × BackoffMultiplier, MaxDelay) and every delay
from index 5 on stays at the 30s cap — and once `MaxRetries` consecutive
failures have occurred no further restart is scheduled. -/
theorem restartBackoffSchedule (p : RestartPolicy) (mr : Nat) :
    (∀ n, restartDelay p (n + 1)
        = min (restartDelay p n * p.backoffMultiplier) p.maxDelay) ∧
    (restartDelay ⟨true, mr, 1, 30, 2⟩ 0 = 1 ∧
     restartDelay ⟨true, mr, 1, 30, 2⟩ 1 = 2 ∧
     restartDelay ⟨true, mr, 1, 30, 2⟩ 2 = 4 ∧
     restartDelay ⟨true, mr, 1, 30, 2⟩ 3 = 8 ∧
     restartDelay ⟨true, mr, 1, 30, 2⟩ 4 = 16 ∧
     restartDelay ⟨true, mr, 1, 30, 2⟩ 5 = 30 ∧
     restartDelay ⟨true, mr, 1, 30, 2⟩ 6 = 30) ∧
    (∀ n, 5 ≤ n → restartDelay ⟨true, mr, 1, 30, 2⟩ n = 30) ∧
    (∀ count, mr ≤ count → shouldRestart ⟨true, mr, 1, 30, 2⟩ count = false) := by
  have d0 : restartDelay ⟨true, mr, 1, 30, 2⟩ 0 = 1 := rfl
  have d1 : restartDelay ⟨true, mr, 1, 30, 2⟩ 1 = 2 := by
    rw [restartDelay, d0]; norm_num [min_def]
  have d2 : restartDelay ⟨true, mr, 1, 30, 2⟩ 2 = 4 := by
    rw [restartDelay, d1]; norm_num [min_def]
  have d3 : restartDelay ⟨true, mr, 1, 30, 2⟩ 3 = 8 := by
    rw [restartDelay, d2]; norm_num [min_def]
  have d4 : restartDelay ⟨true, mr, 1, 30, 2⟩ 4 = 16 := by
    rw [restartDelay, d3]; norm_num [min_def]
  have d5 : restartDelay ⟨true, mr, 1, 30, 2⟩ 5 = 30 := by
    rw [restartDelay, d4]; norm_num [min_def]
  have d6 : restartDelay ⟨true, mr, 1, 30, 2⟩ 6 = 30 := by
    rw [restartDelay, d5]; norm_num [min_def]
  refine ⟨fun n => rfl, ⟨d0, d1, d2, d3, d4, d5, d6⟩, ?_, ?_⟩
  · intro n hn
    induction n, hn using Nat.le_induction with
    | base => exact d5
    | succ n hn ih => rw [restartDelay, ih]; norm_num [min_def]
  · intro count hcount
    simp only [shouldRestart, Bool.and_eq_false_iff, decide_eq_false_iff_not, Nat.not_lt]
    right
    exact hcount

/-- Closed witness for `restartBackoffSchedule` at the test policy
(MaxRetries = 3): the seventh delay is still capped at 30s and no restart is
scheduled once the retry budget is spent. -/
theorem restartBackoffSchedule_witness :
    restartDelay ⟨true, 3, 1, 30, 2⟩ 7 = 30 ∧
    shouldRestart ⟨true, 3, 1, 30, 2⟩ 3 = false := by
  obtain ⟨-, -, h3, h4⟩ := restartBackoffSchedule ⟨true, 3, 1, 30, 2⟩ 3
  exact ⟨h3 7 (by norm_num), h4 3 (by norm_num)⟩

end Ffmpeg
